import Mathlib

/-! Shallow embedding of the trace-tree construction core of the
otel-github-grafana-exporter GitHub action (src/main.ts): an event-trace
semantics for processSteps, processJob, handleJobsAndSteps and
createSpansForJobsAndSteps, together with the removeUndefinedProperties
attribute sanitizer.

Modelling conventions:
- A JavaScript Date produced by `new Date(s)` is either a valid instant or an
  Invalid Date; validity and the instant are determined by an abstract date
  parser `dp : String → Option Int` standing for `Date.parse` (none = NaN).
  All definitions are parameterized by `dp`.
- JS truthiness of a `string | null` field: null and the empty string are falsy.
- Span operations are recorded as an event list. Span identity is tracked
  structurally (root / job index / job index × step index) rather than by the
  opaque handles of the tracer.
- `Promise.all` over the jobs is modelled by a fixed sequential interleaving of
  the per-job event lists; the claims proved below are interleaving-independent
  (they only concern which per-span events occur and their per-span values).
- Hypothetical runtime errors are fault injections: an oracle `o : Nat → Option Nat`
  says at which step index (if any) processing of a given job's steps raises,
  and a `dispatchRaises` flag injects a raise out of the job-dispatch phase,
  which the source catches with `core.setFailed`. The uncaught TypeError of
  `[].reduce` (no initial value) in the root finally-block is modelled by the
  Bool component of `createSpansForJobsAndSteps` (true = the call raises). -/

namespace GrafanaExporter

/-- JS Date value as produced by `new Date(s)`: a valid instant in epoch
milliseconds, or an Invalid Date when `Date.parse` yields NaN. -/
inductive JsDate where
  | valid (ms : Int)
  | invalid
deriving DecidableEq, Repr

/-- Model of `new Date(s)` relative to the date parser `dp` (= `Date.parse`). -/
def jsNewDate (dp : String → Option Int) (s : String) : JsDate :=
  match dp s with
  | some t => JsDate.valid t
  | none => JsDate.invalid

/-- JS truthiness of a `string | null` value: null and `""` are falsy. -/
def jsTruthy : Option String → Bool
  | none => false
  | some s => s != ""

/-- The `x ? new Date(x) : undefined` pattern used for span start/end times. -/
def optDateArg (dp : String → Option Int) (o : Option String) : Option JsDate :=
  if jsTruthy o then some (jsNewDate dp (o.getD "")) else none

/-- Attribute value: `string | number` (after sanitization). -/
inductive AttrVal where
  | str (s : String)
  | num (n : Int)
deriving DecidableEq, Repr

/-- The `x ? x : undefined` pattern used for optional string attributes. -/
def optStrAttr (o : Option String) : Option AttrVal :=
  if jsTruthy o then some (AttrVal.str (o.getD "")) else none

/-- removeUndefinedProperties (src/main.ts): reduces over the entries of the
object, copying exactly those whose value is not undefined. The JS object is
modelled as its entry list. -/
def removeUndefinedProperties (obj : List (String × Option AttrVal)) :
    List (String × AttrVal) :=
  obj.foldl
    (fun acc kv =>
      match kv.2 with
      | some v => acc ++ [(kv.1, v)]
      | none => acc)
    []

/-- A step record of the workflow-jobs listing (fields used by the source). -/
structure Step where
  name : String
  number : Int
  status : String
  conclusion : Option String
  started_at : Option String
  completed_at : Option String
deriving DecidableEq, Repr

/-- A job record of the workflow-jobs listing (fields used by the source). -/
structure Job where
  id : Int
  name : String
  status : String
  conclusion : Option String
  started_at : Option String
  completed_at : Option String
  steps : Option (List Step)
deriving DecidableEq, Repr

/-- Span status codes used by the source. -/
inductive StatusCode where
  | OK
  | ERROR
deriving DecidableEq, Repr

/-- Structural identity of a span in the tree: the root span, the span of the
job at a given index of the job list, or the span of the step at a given index
of that job's step list. -/
inductive SpanId where
  | root
  | job (k : Nat)
  | step (k : Nat) (i : Nat)
deriving DecidableEq, Repr

/-- Observable span/tracer operations recorded by the semantics. -/
inductive Ev where
  | startSpan (sid : SpanId) (name : String) (startTime : Option JsDate)
      (attrs : List (String × AttrVal))
  | setStatus (sid : SpanId) (code : StatusCode) (msg : Option String)
  | setAttrs (sid : SpanId) (attrs : List (String × AttrVal))
  | endSpan (sid : SpanId) (endTime : Option JsDate)
  | coreSetFailed (msg : String)
deriving DecidableEq, Repr

/-- setSpanStatus (src/main.ts): OK with message "OK" when success,
ERROR with message "ERROR" otherwise. -/
def setSpanStatus (sid : SpanId) (success : Bool) : Ev :=
  if success then Ev.setStatus sid StatusCode.OK (some "OK")
  else Ev.setStatus sid StatusCode.ERROR (some "ERROR")

/-- Span start-time argument for a job: `job.started_at ? new Date(...) : undefined`. -/
def jobStartArg (dp : String → Option Int) (j : Job) : Option JsDate :=
  optDateArg dp j.started_at

/-- Span end-time argument for a job: `job.completed_at ? new Date(...) : undefined`. -/
def jobEndArg (dp : String → Option Int) (j : Job) : Option JsDate :=
  optDateArg dp j.completed_at

/-- Span start-time argument for a step. -/
def stepStartArg (dp : String → Option Int) (st : Step) : Option JsDate :=
  optDateArg dp st.started_at

/-- Span end-time argument for a step. -/
def stepEndArg (dp : String → Option Int) (st : Step) : Option JsDate :=
  optDateArg dp st.completed_at

/-- The raw (pre-sanitization) step attribute object built in processSteps. -/
def stepAttrsRaw (st : Step) : List (String × Option AttrVal) :=
  [("step.number", some (AttrVal.num st.number)),
   ("step.status", some (AttrVal.str st.status)),
   ("step.started_at", optStrAttr st.started_at),
   ("step.conclusion", optStrAttr st.conclusion)]

/-- Events of one iteration of the processSteps loop (src/main.ts): start the
step span (start time from started_at, no option attributes), set the sanitized
step attributes, set the status from the step's conclusion, end the span at
completed_at if present. `k` is the job index, `i` the step index. -/
def stepEvents (dp : String → Option Int) (k i : Nat) (st : Step) : List Ev :=
  [Ev.startSpan (SpanId.step k i) st.name (stepStartArg dp st) [],
   Ev.setAttrs (SpanId.step k i) (removeUndefinedProperties (stepAttrsRaw st)),
   setSpanStatus (SpanId.step k i) (st.conclusion == some "success"),
   Ev.endSpan (SpanId.step k i) (stepEndArg dp st)]

/-- processSteps (src/main.ts) for the steps of job `k`, starting at step index
`n`. `raiseAt` is the fault-injection oracle: when it names the current step
index the loop iteration raises (before any event of that step), modelling an
error raised while processing that step; the Bool result records whether the
loop raised. Without injected faults the loop is total and processes the steps
strictly in list order. -/
def processStepsGo (dp : String → Option Int) (raiseAt : Option Nat) (k : Nat) :
    Nat → List Step → List Ev × Bool
  | _, [] => ([], false)
  | n, st :: rest =>
    if raiseAt = some n then ([], true)
    else (stepEvents dp k n st ++ (processStepsGo dp raiseAt k (n + 1) rest).1,
          (processStepsGo dp raiseAt k (n + 1) rest).2)

/-- processSteps starting at the head of the step list. -/
def processSteps (dp : String → Option Int) (raiseAt : Option Nat) (k : Nat)
    (steps : List Step) : List Ev × Bool :=
  processStepsGo dp raiseAt k 0 steps

/-- The step-processing part of processJob: runs processSteps when the job has
a steps array, otherwise does nothing. -/
def jobStepsRun (dp : String → Option Int) (raiseAt : Option Nat) (k : Nat)
    (job : Job) : List Ev × Bool :=
  match job.steps with
  | some steps => processSteps dp raiseAt k steps
  | none => ([], false)

/-- processJob (src/main.ts) for the job at index `k`: start the job span
(name "Job: " ++ name, start time from started_at, attributes job.id and
job.status), then in a try block set the status from the job's conclusion and
process the steps; an error raised by step processing is caught locally and
reported via core.setFailed; the finally block always ends the job span at
completed_at if present. processJob therefore never raises. -/
def processJob (dp : String → Option Int) (raiseAt : Option Nat) (k : Nat)
    (job : Job) : List Ev :=
  [Ev.startSpan (SpanId.job k) ("Job: " ++ job.name) (jobStartArg dp job)
     [("job.id", AttrVal.num job.id), ("job.status", AttrVal.str job.status)],
   setSpanStatus (SpanId.job k) (job.conclusion == some "success")]
  ++ (jobStepsRun dp raiseAt k job).1
  ++ (if (jobStepsRun dp raiseAt k job).2 then
        [Ev.coreSetFailed ("Failed to process job " ++ job.name)]
      else [])
  ++ [Ev.endSpan (SpanId.job k) (jobEndArg dp job)]

/-- The Promise.all fan-out of handleJobsAndSteps, one processJob per job, in a
fixed sequential interleaving; `o` gives each job's step fault injection. The
try/catch around each unit never fires in the model because processJob is
total (its own try/catch/finally absorbs the injected step faults). -/
def runJobs (dp : String → Option Int) (o : Nat → Option Nat) :
    Nat → List Job → List Ev
  | _, [] => []
  | n, job :: rest => processJob dp (o n) n job ++ runJobs dp o (n + 1) rest

/-- handleJobsAndSteps (src/main.ts): computes anyJobError from the jobs'
conclusion fields alone, sets the root status (no message) to ERROR iff some
job's conclusion differs from success, attaches the sanitized root attributes,
then dispatches processJob over all jobs. -/
def handleJobsAndSteps (dp : String → Option Int) (o : Nat → Option Nat)
    (jobs : List Job) (rootAttributes : List (String × Option AttrVal)) :
    List Ev :=
  Ev.setStatus SpanId.root
      (if jobs.any (fun job => !(job.conclusion == some "success")) then
        StatusCode.ERROR
      else StatusCode.OK)
      none
  :: Ev.setAttrs SpanId.root (removeUndefinedProperties rootAttributes)
  :: runJobs dp o 0 jobs

/-- The `(x.completed_at && Date.parse(x.completed_at)) || 0` sort key of the
root end-time reduction: 0 for a missing or empty or unparseable timestamp
(null, "" and NaN are falsy), otherwise the parsed value (a parsed value of 0
is falsy, but `0 || 0` is again 0, so the clause is value-identical). -/
def jobSortKey (dp : String → Option Int) (j : Job) : Int :=
  match j.completed_at with
  | none => 0
  | some s =>
    if s = "" then 0
    else
      match dp s with
      | none => 0
      | some t => t

/-- One comparison of the reduce callback: keep `prev` when its key is
strictly greater, otherwise take `current`. -/
def pick (dp : String → Option Int) (prev cur : Job) : Job :=
  if jobSortKey dp prev > jobSortKey dp cur then prev else cur

/-- The `completedJobs.reduce(...)` of the root finally-block: none when the
filtered list is empty (JS: `reduce` of an empty array with no initial value
throws a TypeError), otherwise the fold of `pick` over the completed jobs. -/
def lastCompletedJob (dp : String → Option Int) (jobs : List Job) : Option Job :=
  match jobs.filter (fun j => j.status == "completed") with
  | [] => none
  | j0 :: rest => some (List.foldl (pick dp) j0 rest)

/-- The try/catch body of createSpansForJobsAndSteps: either the normal
handleJobsAndSteps trace, or — when a dispatch fault is injected — the
core.setFailed call of the catch block. Either way no error escapes the
try/catch. -/
def rootBody (dp : String → Option Int) (o : Nat → Option Nat)
    (dispatchRaises : Bool) (jobs : List Job)
    (rootAttributes : List (String × Option AttrVal)) : List Ev :=
  if dispatchRaises then [Ev.coreSetFailed "Failed to parse jobs and steps"]
  else handleJobsAndSteps dp o jobs rootAttributes

/-- createSpansForJobsAndSteps (src/main.ts): opens the root span (explicit
start time `new Date(startTime)`), runs the body under try/catch, and in the
finally block reduces the completed jobs to the one with the greatest sort key
and ends the root span at that job's completed_at (undefined when falsy).
When no job has status completed the reduce throws a TypeError before
`span.end` is reached: the root span is not ended and the call raises — the
Bool component is true exactly in that case. -/
def createSpansForJobsAndSteps (dp : String → Option Int) (o : Nat → Option Nat)
    (dispatchRaises : Bool) (startTime : String) (jobs : List Job)
    (rootAttributes : List (String × Option AttrVal)) : List Ev × Bool :=
  match lastCompletedJob dp jobs with
  | none =>
      (Ev.startSpan SpanId.root "root" (some (jsNewDate dp startTime)) []
        :: rootBody dp o dispatchRaises jobs rootAttributes,
       true)
  | some last =>
      (Ev.startSpan SpanId.root "root" (some (jsNewDate dp startTime)) []
        :: (rootBody dp o dispatchRaises jobs rootAttributes
            ++ [Ev.endSpan SpanId.root (jobEndArg dp last)]),
       false)

/-- Selector: the codes of the setStatus calls made on the root span. -/
def rootStatusF : Ev → Option StatusCode
  | Ev.setStatus SpanId.root c _ => some c
  | _ => none

/-- setStatus codes observed on the root span, in order. -/
def rootStatusEvents (evs : List Ev) : List StatusCode :=
  evs.filterMap rootStatusF

/-- Selector: the end-time arguments of the end calls made on the root span. -/
def rootEndF : Ev → Option (Option JsDate)
  | Ev.endSpan SpanId.root d => some d
  | _ => none

/-- end-call arguments observed on the root span, in order. -/
def rootEndEvents (evs : List Ev) : List (Option JsDate) :=
  evs.filterMap rootEndF

/-- Selector: start calls of the span of job `i` (name, start time, attributes). -/
def jobStartF (i : Nat) : Ev → Option (String × Option JsDate × List (String × AttrVal))
  | Ev.startSpan (SpanId.job k) nm t a => if k = i then some (nm, t, a) else none
  | _ => none

/-- start-call records observed on the span of job `i`, in order. -/
def jobStartEvents (i : Nat) (evs : List Ev) :
    List (String × Option JsDate × List (String × AttrVal)) :=
  evs.filterMap (jobStartF i)

/-- Selector: the end-time arguments of end calls on the span of job `i`. -/
def jobEndF (i : Nat) : Ev → Option (Option JsDate)
  | Ev.endSpan (SpanId.job k) d => if k = i then some d else none
  | _ => none

/-- end-call arguments observed on the span of job `i`, in order. -/
def jobEndEvents (i : Nat) (evs : List Ev) : List (Option JsDate) :=
  evs.filterMap (jobEndF i)

/-- Selector: the setStatus calls (code and message) on the span of job `i`. -/
def jobStatusF (i : Nat) : Ev → Option (StatusCode × Option String)
  | Ev.setStatus (SpanId.job k) c m => if k = i then some (c, m) else none
  | _ => none

/-- setStatus records observed on the span of job `i`, in order. -/
def jobStatusEvents (i : Nat) (evs : List Ev) : List (StatusCode × Option String) :=
  evs.filterMap (jobStatusF i)

/-- Selector: the start (true) and end (false) calls of step spans of job `k`,
tagged with the step index. -/
def stepMarkerF (k : Nat) : Ev → Option (Bool × Nat)
  | Ev.startSpan (SpanId.step k2 i) _ _ _ => if k2 = k then some (true, i) else none
  | Ev.endSpan (SpanId.step k2 i) _ => if k2 = k then some (false, i) else none
  | _ => none

/-- start/end markers of the step spans of job `k`, in event order. -/
def stepMarkers (k : Nat) (evs : List Ev) : List (Bool × Nat) :=
  evs.filterMap (stepMarkerF k)

/-- Selector: the names of started step spans of job `k`. -/
def stepNameF (k : Nat) : Ev → Option String
  | Ev.startSpan (SpanId.step k2 _) nm _ _ => if k2 = k then some nm else none
  | _ => none

/-- names of the step spans of job `k` in creation order. -/
def stepStartNames (k : Nat) (evs : List Ev) : List String :=
  evs.filterMap (stepNameF k)

/-- Selector keeping precisely the events addressed to the span of step `i` of
job `k`. -/
def stepAtF (k i : Nat) : Ev → Option Ev
  | Ev.startSpan (SpanId.step k2 i2) nm t a =>
    if k2 = k ∧ i2 = i then some (Ev.startSpan (SpanId.step k2 i2) nm t a) else none
  | Ev.setAttrs (SpanId.step k2 i2) a =>
    if k2 = k ∧ i2 = i then some (Ev.setAttrs (SpanId.step k2 i2) a) else none
  | Ev.setStatus (SpanId.step k2 i2) c m =>
    if k2 = k ∧ i2 = i then some (Ev.setStatus (SpanId.step k2 i2) c m) else none
  | Ev.endSpan (SpanId.step k2 i2) d =>
    if k2 = k ∧ i2 = i then some (Ev.endSpan (SpanId.step k2 i2) d) else none
  | _ => none

/-- the events addressed to the span of step `i` of job `k`, in order. -/
def stepEventsAt (k i : Nat) (evs : List Ev) : List Ev :=
  evs.filterMap (stepAtF k i)

/-- The in-order start/end marker pattern expected of sequential step
processing beginning at step index `n` over `m` steps: each step's span is
started and then ended before the next step's span is started. -/
def expectedMarkers : Nat → Nat → List (Bool × Nat)
  | _, 0 => []
  | n, m + 1 => (true, n) :: (false, n) :: expectedMarkers (n + 1) m

/-- The full start-call record of a job span (name, start time, attributes),
as produced by processJob. -/
def jobStartRecord (dp : String → Option Int) (job : Job) :
    String × Option JsDate × List (String × AttrVal) :=
  ("Job: " ++ job.name, jobStartArg dp job,
   [("job.id", AttrVal.num job.id), ("job.status", AttrVal.str job.status)])

/-- Concrete date parser used for witnesses and counterexamples: a two-entry
table, every other string is unparseable (NaN). -/
def dp0 : String → Option Int :=
  fun s => if s = "T1" then some 100 else if s = "T2" then some 200 else none

/-- No-fault oracle. -/
def oracle0 : Nat → Option Nat := fun _ => none

/-- Oracle injecting a failure while processing step 0 of job 0. -/
def oracleFail0 : Nat → Option Nat := fun k => if k = 0 then some 0 else none

/-- Witness step: successful, fully timestamped. -/
def stepW : Step :=
  { name := "build", number := 1, status := "completed",
    conclusion := some "success", started_at := some "T1",
    completed_at := some "T2" }

/-- Witness job 1: completed, successful, earlier completion, one step. -/
def jobW1 : Job :=
  { id := 1, name := "one", status := "completed", conclusion := some "success",
    started_at := some "T1", completed_at := some "T1", steps := some [stepW] }

/-- Witness job 2: completed, failed, later completion, no steps array. -/
def jobW2 : Job :=
  { id := 2, name := "two", status := "completed", conclusion := some "failure",
    started_at := some "T1", completed_at := some "T2", steps := none }

/-- Witness job: still in progress, no completion timestamp. -/
def jobInProg : Job :=
  { id := 3, name := "three", status := "in_progress", conclusion := none,
    started_at := some "T1", completed_at := none, steps := none }

/-- Witness job: completed but with an unparseable completion timestamp. -/
def jobJunk : Job :=
  { id := 4, name := "four", status := "completed", conclusion := some "success",
    started_at := some "T1", completed_at := some "junk", steps := none }

/-! Helper lemmas: which selectors can see which events. -/

lemma mem_processStepsGo (dp : String → Option Int) (r : Option Nat) (k : Nat) :
    ∀ (n : Nat) (steps : List Step), ∀ e ∈ (processStepsGo dp r k n steps).1,
      ∃ i st, n ≤ i ∧ e ∈ stepEvents dp k i st := by
  intro n steps
  induction steps generalizing n with
  | nil => intro e he; simp [processStepsGo] at he
  | cons st rest ih =>
    intro e he
    by_cases h : r = some n
    · simp [processStepsGo, h] at he
    · simp only [processStepsGo, if_neg h, List.mem_append] at he
      rcases he with he | he
      · exact ⟨n, st, le_refl n, he⟩
      · obtain ⟨i, st2, hi, hmem⟩ := ih (n + 1) e he
        exact ⟨i, st2, by omega, hmem⟩

lemma filterMapNil_of_stepEvents {α : Type} (f : Ev → Option α)
    (hf : ∀ (dp : String → Option Int) (k i : Nat) (st : Step),
      List.filterMap f (stepEvents dp k i st) = [])
    (dp : String → Option Int) (r : Option Nat) (k n : Nat) (steps : List Step) :
    List.filterMap f (processStepsGo dp r k n steps).1 = [] := by
  rw [List.filterMap_eq_nil_iff]
  intro e he
  obtain ⟨i, st, _, hmem⟩ := mem_processStepsGo dp r k n steps e he
  have h2 := hf dp k i st
  rw [List.filterMap_eq_nil_iff] at h2
  exact h2 e hmem

lemma fm_rootStatusF_stepEvents (dp : String → Option Int) (k i : Nat) (st : Step) :
    List.filterMap rootStatusF (stepEvents dp k i st) = [] := by
  cases hconc : (st.conclusion == some "success") <;>
    simp [stepEvents, setSpanStatus, hconc, rootStatusF]

lemma fm_rootEndF_stepEvents (dp : String → Option Int) (k i : Nat) (st : Step) :
    List.filterMap rootEndF (stepEvents dp k i st) = [] := by
  cases hconc : (st.conclusion == some "success") <;>
    simp [stepEvents, setSpanStatus, hconc, rootEndF]

lemma fm_jobStartF_stepEvents (j : Nat) (dp : String → Option Int) (k i : Nat) (st : Step) :
    List.filterMap (jobStartF j) (stepEvents dp k i st) = [] := by
  cases hconc : (st.conclusion == some "success") <;>
    simp [stepEvents, setSpanStatus, hconc, jobStartF]

lemma fm_jobEndF_stepEvents (j : Nat) (dp : String → Option Int) (k i : Nat) (st : Step) :
    List.filterMap (jobEndF j) (stepEvents dp k i st) = [] := by
  cases hconc : (st.conclusion == some "success") <;>
    simp [stepEvents, setSpanStatus, hconc, jobEndF]

lemma fm_jobStatusF_stepEvents (j : Nat) (dp : String → Option Int) (k i : Nat) (st : Step) :
    List.filterMap (jobStatusF j) (stepEvents dp k i st) = [] := by
  cases hconc : (st.conclusion == some "success") <;>
    simp [stepEvents, setSpanStatus, hconc, jobStatusF]

lemma fm_rootStatusF_jobStepsRun (dp : String → Option Int) (r : Option Nat)
    (k : Nat) (job : Job) :
    List.filterMap rootStatusF (jobStepsRun dp r k job).1 = [] := by
  cases hsteps : job.steps with
  | none => simp [jobStepsRun, hsteps]
  | some steps =>
    simp only [jobStepsRun, hsteps, processSteps]
    exact filterMapNil_of_stepEvents rootStatusF fm_rootStatusF_stepEvents dp r k 0 steps

lemma fm_rootEndF_jobStepsRun (dp : String → Option Int) (r : Option Nat)
    (k : Nat) (job : Job) :
    List.filterMap rootEndF (jobStepsRun dp r k job).1 = [] := by
  cases hsteps : job.steps with
  | none => simp [jobStepsRun, hsteps]
  | some steps =>
    simp only [jobStepsRun, hsteps, processSteps]
    exact filterMapNil_of_stepEvents rootEndF fm_rootEndF_stepEvents dp r k 0 steps

lemma fm_jobStartF_jobStepsRun (j : Nat) (dp : String → Option Int) (r : Option Nat)
    (k : Nat) (job : Job) :
    List.filterMap (jobStartF j) (jobStepsRun dp r k job).1 = [] := by
  cases hsteps : job.steps with
  | none => simp [jobStepsRun, hsteps]
  | some steps =>
    simp only [jobStepsRun, hsteps, processSteps]
    exact filterMapNil_of_stepEvents (jobStartF j) (fm_jobStartF_stepEvents j) dp r k 0 steps

lemma fm_jobEndF_jobStepsRun (j : Nat) (dp : String → Option Int) (r : Option Nat)
    (k : Nat) (job : Job) :
    List.filterMap (jobEndF j) (jobStepsRun dp r k job).1 = [] := by
  cases hsteps : job.steps with
  | none => simp [jobStepsRun, hsteps]
  | some steps =>
    simp only [jobStepsRun, hsteps, processSteps]
    exact filterMapNil_of_stepEvents (jobEndF j) (fm_jobEndF_stepEvents j) dp r k 0 steps

lemma fm_jobStatusF_jobStepsRun (j : Nat) (dp : String → Option Int) (r : Option Nat)
    (k : Nat) (job : Job) :
    List.filterMap (jobStatusF j) (jobStepsRun dp r k job).1 = [] := by
  cases hsteps : job.steps with
  | none => simp [jobStepsRun, hsteps]
  | some steps =>
    simp only [jobStepsRun, hsteps, processSteps]
    exact filterMapNil_of_stepEvents (jobStatusF j) (fm_jobStatusF_stepEvents j) dp r k 0 steps

lemma fm_rootStatusF_processJob (dp : String → Option Int) (r : Option Nat)
    (k : Nat) (job : Job) :
    List.filterMap rootStatusF (processJob dp r k job) = [] := by
  cases hconc : (job.conclusion == some "success") <;>
  cases hb : (jobStepsRun dp r k job).2 <;>
    simp [processJob, setSpanStatus, hconc, hb, List.filterMap_append,
      fm_rootStatusF_jobStepsRun, rootStatusF]

lemma fm_rootEndF_processJob (dp : String → Option Int) (r : Option Nat)
    (k : Nat) (job : Job) :
    List.filterMap rootEndF (processJob dp r k job) = [] := by
  cases hconc : (job.conclusion == some "success") <;>
  cases hb : (jobStepsRun dp r k job).2 <;>
    simp [processJob, setSpanStatus, hconc, hb, List.filterMap_append,
      fm_rootEndF_jobStepsRun, rootEndF]

lemma fm_jobStartF_processJob (i : Nat) (dp : String → Option Int) (r : Option Nat)
    (k : Nat) (job : Job) :
    List.filterMap (jobStartF i) (processJob dp r k job) =
      if k = i then [jobStartRecord dp job] else [] := by
  by_cases hk : k = i <;>
  cases hconc : (job.conclusion == some "success") <;>
  cases hb : (jobStepsRun dp r k job).2 <;>
    simp [processJob, setSpanStatus, hconc, hb, hk, List.filterMap_append,
      fm_jobStartF_jobStepsRun, jobStartF, jobStartRecord]

lemma fm_jobEndF_processJob (i : Nat) (dp : String → Option Int) (r : Option Nat)
    (k : Nat) (job : Job) :
    List.filterMap (jobEndF i) (processJob dp r k job) =
      if k = i then [jobEndArg dp job] else [] := by
  by_cases hk : k = i <;>
  cases hconc : (job.conclusion == some "success") <;>
  cases hb : (jobStepsRun dp r k job).2 <;>
    simp [processJob, setSpanStatus, hconc, hb, hk, List.filterMap_append,
      fm_jobEndF_jobStepsRun, jobEndF]

lemma fm_jobStatusF_processJob (i : Nat) (dp : String → Option Int) (r : Option Nat)
    (k : Nat) (job : Job) :
    List.filterMap (jobStatusF i) (processJob dp r k job) =
      if k = i then
        [if job.conclusion == some "success" then (StatusCode.OK, some "OK")
         else (StatusCode.ERROR, some "ERROR")]
      else [] := by
  by_cases hk : k = i <;>
  cases hconc : (job.conclusion == some "success") <;>
  cases hb : (jobStepsRun dp r k job).2 <;>
    simp [processJob, setSpanStatus, hconc, hb, hk, List.filterMap_append,
      fm_jobStatusF_jobStepsRun, jobStatusF]

lemma fm_rootStatusF_runJobs (dp : String → Option Int) (o : Nat → Option Nat) :
    ∀ (n : Nat) (jobs : List Job),
      List.filterMap rootStatusF (runJobs dp o n jobs) = [] := by
  intro n jobs
  induction jobs generalizing n with
  | nil => simp [runJobs]
  | cons job rest ih =>
    simp [runJobs, List.filterMap_append, fm_rootStatusF_processJob, ih]

lemma fm_rootEndF_runJobs (dp : String → Option Int) (o : Nat → Option Nat) :
    ∀ (n : Nat) (jobs : List Job),
      List.filterMap rootEndF (runJobs dp o n jobs) = [] := by
  intro n jobs
  induction jobs generalizing n with
  | nil => simp [runJobs]
  | cons job rest ih =>
    simp [runJobs, List.filterMap_append, fm_rootEndF_processJob, ih]

lemma fm_jobEndF_runJobs_lt (i : Nat) (dp : String → Option Int) (o : Nat → Option Nat) :
    ∀ (n : Nat) (jobs : List Job), i < n →
      List.filterMap (jobEndF i) (runJobs dp o n jobs) = [] := by
  intro n jobs
  induction jobs generalizing n with
  | nil => intro _; simp [runJobs]
  | cons job rest ih =>
    intro h
    have hk : ¬ (n = i) := by omega
    simp [runJobs, List.filterMap_append, fm_jobEndF_processJob, hk,
      ih (n + 1) (by omega)]

lemma fm_jobStartF_runJobs_lt (i : Nat) (dp : String → Option Int) (o : Nat → Option Nat) :
    ∀ (n : Nat) (jobs : List Job), i < n →
      List.filterMap (jobStartF i) (runJobs dp o n jobs) = [] := by
  intro n jobs
  induction jobs generalizing n with
  | nil => intro _; simp [runJobs]
  | cons job rest ih =>
    intro h
    have hk : ¬ (n = i) := by omega
    simp [runJobs, List.filterMap_append, fm_jobStartF_processJob, hk,
      ih (n + 1) (by omega)]

lemma fm_jobEndF_runJobs_add (dp : String → Option Int) (o : Nat → Option Nat) :
    ∀ (n m : Nat) (jobs : List Job),
      List.filterMap (jobEndF (n + m)) (runJobs dp o n jobs) =
        ((jobs[m]?).map (jobEndArg dp)).toList := by
  intro n m jobs
  induction jobs generalizing n m with
  | nil => simp [runJobs]
  | cons job rest ih =>
    cases m with
    | zero =>
      have h1 : List.filterMap (jobEndF n) (runJobs dp o (n + 1) rest) = [] :=
        fm_jobEndF_runJobs_lt n dp o (n + 1) rest (by omega)
      simp [runJobs, List.filterMap_append, fm_jobEndF_processJob, h1]
    | succ m2 =>
      have hk : ¬ (n = n + (m2 + 1)) := by omega
      have h2 := ih (n + 1) m2
      have harith : n + 1 + m2 = n + (m2 + 1) := by omega
      rw [harith] at h2
      simp [runJobs, List.filterMap_append, fm_jobEndF_processJob, hk, h2]

lemma fm_jobStartF_runJobs_add (dp : String → Option Int) (o : Nat → Option Nat) :
    ∀ (n m : Nat) (jobs : List Job),
      List.filterMap (jobStartF (n + m)) (runJobs dp o n jobs) =
        ((jobs[m]?).map (jobStartRecord dp)).toList := by
  intro n m jobs
  induction jobs generalizing n m with
  | nil => simp [runJobs]
  | cons job rest ih =>
    cases m with
    | zero =>
      have h1 : List.filterMap (jobStartF n) (runJobs dp o (n + 1) rest) = [] :=
        fm_jobStartF_runJobs_lt n dp o (n + 1) rest (by omega)
      simp [runJobs, List.filterMap_append, fm_jobStartF_processJob, h1]
    | succ m2 =>
      have hk : ¬ (n = n + (m2 + 1)) := by omega
      have h2 := ih (n + 1) m2
      have harith : n + 1 + m2 = n + (m2 + 1) := by omega
      rw [harith] at h2
      simp [runJobs, List.filterMap_append, fm_jobStartF_processJob, hk, h2]

lemma mem_runJobs_of_mem_processJob (dp : String → Option Int) (o : Nat → Option Nat) :
    ∀ (n i : Nat) (jobs : List Job) (job : Job), jobs[i]? = some job →
      ∀ e ∈ processJob dp (o (n + i)) (n + i) job, e ∈ runJobs dp o n jobs := by
  intro n i jobs
  induction jobs generalizing n i with
  | nil => intro job h; simp at h
  | cons j0 rest ih =>
    intro job h e he
    cases i with
    | zero =>
      rw [List.getElem?_cons_zero] at h
      injection h with h
      subst h
      rw [runJobs]
      simp only [List.mem_append]
      left
      simpa using he
    | succ i2 =>
      rw [List.getElem?_cons_succ] at h
      rw [runJobs]
      simp only [List.mem_append]
      right
      have harith : n + 1 + i2 = n + (i2 + 1) := by omega
      have h3 := ih (n + 1) i2 job h e (by rw [harith]; exact he)
      exact h3

lemma processStepsGo_raised (dp : String → Option Int) (k m : Nat) :
    ∀ (n : Nat) (steps : List Step), n ≤ m → m < n + steps.length →
      (processStepsGo dp (some m) k n steps).2 = true := by
  intro n steps
  induction steps generalizing n with
  | nil => intro h1 h2; simp at h2; omega
  | cons st rest ih =>
    intro h1 h2
    by_cases h : m = n
    · simp [processStepsGo, h]
    · have hne : ¬ ((some m : Option Nat) = some n) := by simp [h]
      simp only [processStepsGo, if_neg hne]
      exact ih (n + 1) (by omega) (by simp at h2 ⊢; omega)

lemma processStepsGo_none_ok (dp : String → Option Int) (k : Nat) :
    ∀ (n : Nat) (steps : List Step), (processStepsGo dp none k n steps).2 = false := by
  intro n steps
  induction steps generalizing n with
  | nil => simp [processStepsGo]
  | cons st rest ih => simp [processStepsGo, ih]

lemma fm_rootStatusF_handle (dp : String → Option Int) (o : Nat → Option Nat)
    (jobs : List Job) (attrs : List (String × Option AttrVal)) :
    List.filterMap rootStatusF (handleJobsAndSteps dp o jobs attrs) =
      [if jobs.any (fun job => !(job.conclusion == some "success")) then
        StatusCode.ERROR
      else StatusCode.OK] := by
  simp [handleJobsAndSteps, rootStatusF, fm_rootStatusF_runJobs]

lemma fm_rootEndF_handle (dp : String → Option Int) (o : Nat → Option Nat)
    (jobs : List Job) (attrs : List (String × Option AttrVal)) :
    List.filterMap rootEndF (handleJobsAndSteps dp o jobs attrs) = [] := by
  simp [handleJobsAndSteps, rootEndF, fm_rootEndF_runJobs]

lemma fm_rootEndF_rootBody (dp : String → Option Int) (o : Nat → Option Nat)
    (b : Bool) (jobs : List Job) (attrs : List (String × Option AttrVal)) :
    List.filterMap rootEndF (rootBody dp o b jobs attrs) = [] := by
  cases b with
  | true => simp [rootBody, rootEndF]
  | false => simp [rootBody, fm_rootEndF_handle]

lemma fm_jobEndF_handle (dp : String → Option Int) (o : Nat → Option Nat)
    (jobs : List Job) (attrs : List (String × Option AttrVal)) (i : Nat) (job : Job)
    (h : jobs[i]? = some job) :
    List.filterMap (jobEndF i) (handleJobsAndSteps dp o jobs attrs) =
      [jobEndArg dp job] := by
  have h2 := fm_jobEndF_runJobs_add dp o 0 i jobs
  rw [Nat.zero_add, h] at h2
  simp [handleJobsAndSteps, jobEndF, h2]

lemma fm_jobStartF_handle (dp : String → Option Int) (o : Nat → Option Nat)
    (jobs : List Job) (attrs : List (String × Option AttrVal)) (i : Nat) (job : Job)
    (h : jobs[i]? = some job) :
    List.filterMap (jobStartF i) (handleJobsAndSteps dp o jobs attrs) =
      [jobStartRecord dp job] := by
  have h2 := fm_jobStartF_runJobs_add dp o 0 i jobs
  rw [Nat.zero_add, h] at h2
  simp [handleJobsAndSteps, jobStartF, h2]

lemma rootEndEvents_createSpans (dp : String → Option Int) (o : Nat → Option Nat)
    (b : Bool) (st : String) (jobs : List Job)
    (attrs : List (String × Option AttrVal)) :
    rootEndEvents (createSpansForJobsAndSteps dp o b st jobs attrs).1 =
      (match lastCompletedJob dp jobs with
       | none => []
       | some last => [jobEndArg dp last]) := by
  cases hl : lastCompletedJob dp jobs with
  | none =>
    simp [createSpansForJobsAndSteps, hl, rootEndEvents, rootEndF,
      fm_rootEndF_rootBody]
  | some last =>
    simp [createSpansForJobsAndSteps, hl, rootEndEvents, rootEndF,
      List.filterMap_append, fm_rootEndF_rootBody]

lemma createSpans_raised (dp : String → Option Int) (o : Nat → Option Nat)
    (b : Bool) (st : String) (jobs : List Job)
    (attrs : List (String × Option AttrVal)) :
    (createSpansForJobsAndSteps dp o b st jobs attrs).2 =
      (lastCompletedJob dp jobs).isNone := by
  cases hl : lastCompletedJob dp jobs <;> simp [createSpansForJobsAndSteps, hl]

lemma foldl_pick_mem (dp : String → Option Int) :
    ∀ (rest : List Job) (j0 : Job), List.foldl (pick dp) j0 rest ∈ j0 :: rest := by
  intro rest
  induction rest with
  | nil => intro j0; simp
  | cons c cs ih =>
    intro j0
    rw [List.foldl_cons]
    have hp : pick dp j0 c = j0 ∨ pick dp j0 c = c := by
      unfold pick; split <;> simp
    rcases List.mem_cons.mp (ih (pick dp j0 c)) with h2 | h2
    · rcases hp with hp | hp <;> rw [h2, hp] <;> simp
    · simp only [List.mem_cons]
      right; right; exact h2

lemma foldl_pick_ge (dp : String → Option Int) :
    ∀ (rest : List Job) (j0 j : Job), j ∈ j0 :: rest →
      jobSortKey dp j ≤ jobSortKey dp (List.foldl (pick dp) j0 rest) := by
  intro rest
  induction rest with
  | nil =>
    intro j0 j hj
    rcases List.mem_cons.mp hj with h | h
    · rw [h]; simp
    · simp at h
  | cons c cs ih =>
    intro j0 j hj
    rw [List.foldl_cons]
    have hub0 : jobSortKey dp j0 ≤ jobSortKey dp (pick dp j0 c) := by
      unfold pick; split
      · exact le_refl _
      · next h => exact le_of_not_lt h
    have hubc : jobSortKey dp c ≤ jobSortKey dp (pick dp j0 c) := by
      unfold pick; split
      · next h => exact le_of_lt h
      · exact le_refl _
    have htop : jobSortKey dp (pick dp j0 c) ≤
        jobSortKey dp (List.foldl (pick dp) (pick dp j0 c) cs) :=
      ih (pick dp j0 c) (pick dp j0 c) (List.mem_cons_self _ _)
    rcases List.mem_cons.mp hj with h | h
    · rw [h]; exact le_trans hub0 htop
    · rcases List.mem_cons.mp h with h | h
      · rw [h]; exact le_trans hubc htop
      · exact ih (pick dp j0 c) j (List.mem_cons_of_mem _ h)

lemma lastCompletedJob_eq_some (dp : String → Option Int) (jobs : List Job)
    (h : jobs.any (fun j => j.status == "completed") = true) :
    ∃ sel, lastCompletedJob dp jobs = some sel ∧ sel ∈ jobs ∧
      sel.status = "completed" ∧
      ∀ j ∈ jobs, j.status = "completed" → jobSortKey dp j ≤ jobSortKey dp sel := by
  obtain ⟨x, hx, hpx⟩ := List.any_eq_true.mp h
  have hxf : x ∈ jobs.filter (fun j => j.status == "completed") :=
    List.mem_filter.mpr ⟨hx, hpx⟩
  cases hfl : jobs.filter (fun j => j.status == "completed") with
  | nil => rw [hfl] at hxf; simp at hxf
  | cons j0 rest =>
    have hmem : List.foldl (pick dp) j0 rest ∈ j0 :: rest := foldl_pick_mem dp rest j0
    rw [← hfl] at hmem
    have hself := List.mem_filter.mp hmem
    refine ⟨List.foldl (pick dp) j0 rest, ?_, hself.1, by simpa using hself.2, ?_⟩
    · simp [lastCompletedJob, hfl]
    · intro j hj hjc
      have hjmem : j ∈ j0 :: rest := by
        rw [← hfl]; exact List.mem_filter.mpr ⟨hj, by simp [hjc]⟩
      exact foldl_pick_ge dp rest j0 j hjmem

lemma lastCompletedJob_eq_none (dp : String → Option Int) (jobs : List Job)
    (h : ∀ j ∈ jobs, ¬ (j.status = "completed")) :
    lastCompletedJob dp jobs = none := by
  have hfl : jobs.filter (fun j => j.status == "completed") = [] :=
    List.filter_eq_nil_iff.mpr (by intro a ha; simpa using h a ha)
  simp [lastCompletedJob, hfl]

lemma jobSortKey_eq_parse (dp : String → Option Int) (j : Job) (s : String) (t : Int)
    (hs : j.completed_at = some s) (hne : s ≠ "") (hp : dp s = some t) :
    jobSortKey dp j = t := by
  simp [jobSortKey, hs, hne, hp]

lemma jobSortKey_eq_zero (dp : String → Option Int) (j : Job)
    (h : jsTruthy j.completed_at = false ∨ dp (j.completed_at.getD "") = none) :
    jobSortKey dp j = 0 := by
  cases hc : j.completed_at with
  | none => simp [jobSortKey, hc]
  | some s =>
    rcases h with h | h
    · rw [hc] at h
      simp [jsTruthy] at h
      simp [jobSortKey, hc, h]
    · rw [hc] at h
      simp at h
      by_cases hse : s = ""
      · simp [jobSortKey, hc, hse]
      · simp [jobSortKey, hc, hse, h]

lemma jobEndArg_of_falsy (dp : String → Option Int) (j : Job)
    (h : jsTruthy j.completed_at = false) : jobEndArg dp j = none := by
  simp [jobEndArg, optDateArg, h]

lemma jobEndArg_of_unparseable (dp : String → Option Int) (j : Job)
    (h1 : jsTruthy j.completed_at = true) (h2 : dp (j.completed_at.getD "") = none) :
    jobEndArg dp j = some JsDate.invalid := by
  simp [jobEndArg, optDateArg, h1, jsNewDate, h2]

lemma jobEndArg_of_parse (dp : String → Option Int) (j : Job) (s : String) (t : Int)
    (hs : j.completed_at = some s) (hne : s ≠ "") (hp : dp s = some t) :
    jobEndArg dp j = some (JsDate.valid t) := by
  simp [jobEndArg, optDateArg, jsTruthy, hs, hne, jsNewDate, hp]

lemma fm_stepMarkerF_stepEvents (dp : String → Option Int) (k i : Nat) (st : Step) :
    List.filterMap (stepMarkerF k) (stepEvents dp k i st) = [(true, i), (false, i)] := by
  cases hconc : (st.conclusion == some "success") <;>
    simp [stepEvents, setSpanStatus, hconc, stepMarkerF]

lemma fm_stepMarkerF_processStepsGo (dp : String → Option Int) (k : Nat) :
    ∀ (n : Nat) (steps : List Step),
      List.filterMap (stepMarkerF k) (processStepsGo dp none k n steps).1 =
        expectedMarkers n steps.length := by
  intro n steps
  induction steps generalizing n with
  | nil => simp [processStepsGo, expectedMarkers]
  | cons st rest ih =>
    simp [processStepsGo, List.filterMap_append, fm_stepMarkerF_stepEvents,
      ih (n + 1), expectedMarkers]

lemma fm_stepNameF_stepEvents (dp : String → Option Int) (k i : Nat) (st : Step) :
    List.filterMap (stepNameF k) (stepEvents dp k i st) = [st.name] := by
  cases hconc : (st.conclusion == some "success") <;>
    simp [stepEvents, setSpanStatus, hconc, stepNameF]

lemma fm_stepNameF_processStepsGo (dp : String → Option Int) (k : Nat) :
    ∀ (n : Nat) (steps : List Step),
      List.filterMap (stepNameF k) (processStepsGo dp none k n steps).1 =
        steps.map Step.name := by
  intro n steps
  induction steps generalizing n with
  | nil => simp [processStepsGo]
  | cons st rest ih =>
    simp [processStepsGo, List.filterMap_append, fm_stepNameF_stepEvents, ih (n + 1)]

lemma stepAtF_eq_some (k i : Nat) :
    ∀ (a e : Ev), stepAtF k i a = some e → a = e := by
  intro a e h
  cases a with
  | startSpan sid nm t a2 =>
    cases sid with
    | root => simp [stepAtF] at h
    | job _ => simp [stepAtF] at h
    | step k2 i2 =>
      by_cases hc : k2 = k ∧ i2 = i
      · obtain ⟨rfl, rfl⟩ := hc
        simp [stepAtF] at h
        rw [← h]
      · simp [stepAtF, hc] at h
  | setStatus sid c m =>
    cases sid with
    | root => simp [stepAtF] at h
    | job _ => simp [stepAtF] at h
    | step k2 i2 =>
      by_cases hc : k2 = k ∧ i2 = i
      · obtain ⟨rfl, rfl⟩ := hc
        simp [stepAtF] at h
        rw [← h]
      · simp [stepAtF, hc] at h
  | setAttrs sid a2 =>
    cases sid with
    | root => simp [stepAtF] at h
    | job _ => simp [stepAtF] at h
    | step k2 i2 =>
      by_cases hc : k2 = k ∧ i2 = i
      · obtain ⟨rfl, rfl⟩ := hc
        simp [stepAtF] at h
        rw [← h]
      · simp [stepAtF, hc] at h
  | endSpan sid d =>
    cases sid with
    | root => simp [stepAtF] at h
    | job _ => simp [stepAtF] at h
    | step k2 i2 =>
      by_cases hc : k2 = k ∧ i2 = i
      · obtain ⟨rfl, rfl⟩ := hc
        simp [stepAtF] at h
        rw [← h]
      · simp [stepAtF, hc] at h
  | coreSetFailed m => simp [stepAtF] at h

lemma fm_stepAtF_stepEvents_eq (dp : String → Option Int) (k i : Nat) (st : Step) :
    List.filterMap (stepAtF k i) (stepEvents dp k i st) = stepEvents dp k i st := by
  cases hconc : (st.conclusion == some "success") <;>
    simp [stepEvents, setSpanStatus, hconc, stepAtF]

lemma fm_stepAtF_stepEvents_ne (dp : String → Option Int) (k i j : Nat) (st : Step)
    (h : j ≠ i) :
    List.filterMap (stepAtF k i) (stepEvents dp k j st) = [] := by
  cases hconc : (st.conclusion == some "success") <;>
    simp [stepEvents, setSpanStatus, hconc, stepAtF, h]

lemma fm_stepAtF_processStepsGo_lt (dp : String → Option Int) (k i : Nat) :
    ∀ (n : Nat) (steps : List Step), i < n →
      List.filterMap (stepAtF k i) (processStepsGo dp none k n steps).1 = [] := by
  intro n steps
  induction steps generalizing n with
  | nil => intro _; simp [processStepsGo]
  | cons st rest ih =>
    intro h
    have hne : n ≠ i := by omega
    simp [processStepsGo, List.filterMap_append,
      fm_stepAtF_stepEvents_ne dp k i n st hne, ih (n + 1) (by omega)]

lemma fm_stepAtF_processStepsGo (dp : String → Option Int) (k : Nat) :
    ∀ (n : Nat) (steps : List Step) (i : Nat) (st : Step), steps[i]? = some st →
      List.filterMap (stepAtF k (n + i)) (processStepsGo dp none k n steps).1 =
        stepEvents dp k (n + i) st := by
  intro n steps
  induction steps generalizing n with
  | nil => intro i st h; simp at h
  | cons st0 rest ih =>
    intro i st h
    cases i with
    | zero =>
      rw [List.getElem?_cons_zero] at h
      injection h with h
      subst h
      simp only [Nat.add_zero]
      have htail : List.filterMap (stepAtF k n) (processStepsGo dp none k (n + 1) rest).1 = [] :=
        fm_stepAtF_processStepsGo_lt dp k n (n + 1) rest (by omega)
      simp [processStepsGo, List.filterMap_append, fm_stepAtF_stepEvents_eq, htail]
    | succ i2 =>
      rw [List.getElem?_cons_succ] at h
      have hne : n ≠ n + (i2 + 1) := by omega
      have h2 := ih (n + 1) i2 st h
      have harith : n + 1 + i2 = n + (i2 + 1) := by omega
      rw [harith] at h2
      simp [processStepsGo, List.filterMap_append,
        fm_stepAtF_stepEvents_ne dp k (n + (i2 + 1)) n st0 hne, h2]

lemma removeUndefinedProperties_foldl (obj : List (String × Option AttrVal)) :
    ∀ init : List (String × AttrVal),
      obj.foldl
        (fun acc kv =>
          match kv.2 with
          | some v => acc ++ [(kv.1, v)]
          | none => acc)
        init
      = init ++ obj.filterMap (fun kv => (kv.2).map (fun v => (kv.1, v))) := by
  induction obj with
  | nil => intro init; simp
  | cons kv rest ih =>
    intro init
    obtain ⟨key, val⟩ := kv
    cases val with
    | none => simp [List.foldl_cons, ih init]
    | some v => simp [List.foldl_cons, ih (init ++ [(key, v)])]

lemma removeUndefinedProperties_eq_filterMap (obj : List (String × Option AttrVal)) :
    removeUndefinedProperties obj =
      obj.filterMap (fun kv => (kv.2).map (fun v => (kv.1, v))) := by
  rw [removeUndefinedProperties, removeUndefinedProperties_foldl obj []]
  simp

lemma removeUndefinedProperties_map_some (l : List (String × AttrVal)) :
    removeUndefinedProperties (l.map (fun kv => (kv.1, some kv.2))) = l := by
  induction l with
  | nil => rfl
  | cons kv rest ih =>
    obtain ⟨k2, v2⟩ := kv
    rw [removeUndefinedProperties_eq_filterMap] at ih ⊢
    simpa using ih

/-- C1: for every job list, the root status is set to ERROR exactly when some
job's conclusion differs from success and to OK exactly when every job's
conclusion is success, and the root status events are identical under any two
step-fault oracles — the aggregate depends only on the conclusion fields,
never on whether per-job processing succeeded. -/
theorem root_status_matches_conclusions (dp : String → Option Int)
    (o o2 : Nat → Option Nat) (jobs : List Job)
    (attrs : List (String × Option AttrVal)) :
    (rootStatusEvents (handleJobsAndSteps dp o jobs attrs) = [StatusCode.ERROR]
        ↔ ∃ j ∈ jobs, ¬ (j.conclusion = some "success"))
  ∧ (rootStatusEvents (handleJobsAndSteps dp o jobs attrs) = [StatusCode.OK]
        ↔ ∀ j ∈ jobs, j.conclusion = some "success")
  ∧ rootStatusEvents (handleJobsAndSteps dp o jobs attrs) =
      rootStatusEvents (handleJobsAndSteps dp o2 jobs attrs) := by
  have h1 := fm_rootStatusF_handle dp o jobs attrs
  have h2 := fm_rootStatusF_handle dp o2 jobs attrs
  have hiff : (jobs.any (fun job => !(job.conclusion == some "success")) = true)
      ↔ ∃ j ∈ jobs, ¬ (j.conclusion = some "success") := by
    simp [List.any_eq_true]
  simp only [rootStatusEvents]
  by_cases hany : jobs.any (fun job => !(job.conclusion == some "success")) = true
  · rw [if_pos hany] at h1 h2
    refine ⟨?_, ?_, ?_⟩
    · rw [h1]
      exact ⟨fun _ => hiff.mp hany, fun _ => rfl⟩
    · rw [h1]
      constructor
      · intro hh; simp at hh
      · intro hall
        obtain ⟨j, hj, hne⟩ := hiff.mp hany
        exact absurd (hall j hj) hne
    · rw [h1, h2]
  · rw [if_neg hany] at h1 h2
    have hall : ∀ j ∈ jobs, j.conclusion = some "success" := by
      intro j hj
      by_contra hne
      exact hany (hiff.mpr ⟨j, hj, hne⟩)
    refine ⟨?_, ?_, ?_⟩
    · rw [h1]
      constructor
      · intro hh; simp at hh
      · rintro ⟨j, hj, hne⟩; exact absurd (hall j hj) hne
    · rw [h1]
      exact ⟨fun _ => hall, fun _ => rfl⟩
    · rw [h1, h2]

/-- C6: the status set on a job's span is OK (message "OK") exactly when the
job's own conclusion field equals success and ERROR (message "ERROR")
otherwise, and the job-status events are unchanged under any replacement of
the job's steps field — step outcomes are ignored. -/
theorem job_status_from_conclusion (dp : String → Option Int) (r : Option Nat)
    (i : Nat) (job : Job) :
    (jobStatusEvents i (processJob dp r i job) = [(StatusCode.OK, some "OK")]
        ↔ job.conclusion = some "success")
  ∧ (jobStatusEvents i (processJob dp r i job) = [(StatusCode.ERROR, some "ERROR")]
        ↔ ¬ (job.conclusion = some "success"))
  ∧ ∀ steps2 : Option (List Step),
      jobStatusEvents i (processJob dp r i { job with steps := steps2 }) =
        jobStatusEvents i (processJob dp r i job) := by
  have hmain : ∀ j2 : Job, List.filterMap (jobStatusF i) (processJob dp r i j2) =
      [if j2.conclusion == some "success" then (StatusCode.OK, some "OK")
       else (StatusCode.ERROR, some "ERROR")] := by
    intro j2
    rw [fm_jobStatusF_processJob i dp r i j2, if_pos rfl]
  simp only [jobStatusEvents]
  refine ⟨?_, ?_, ?_⟩
  · rw [hmain job]
    by_cases hc : job.conclusion = some "success"
    · simp [hc]
    · have hb : (job.conclusion == some "success") = false := by simp [hc]
      simp [hb, hc]
  · rw [hmain job]
    by_cases hc : job.conclusion = some "success"
    · simp [hc]
    · have hb : (job.conclusion == some "success") = false := by simp [hc]
      simp [hb, hc]
  · intro steps2
    rw [hmain job, hmain { job with steps := steps2 }]

/-- C7: without injected faults, processSteps emits exactly one start and one
end per input step, in input-list order, each step's span being ended before
the next one is started (the marker sequence is the positional pattern
(start 0, end 0, start 1, end 1, ...)), and the created span names follow the
input order — the step number field plays no role in the order. -/
theorem steps_processed_in_order (dp : String → Option Int) (k : Nat)
    (steps : List Step) :
    stepMarkers k (processSteps dp none k steps).1 = expectedMarkers 0 steps.length
  ∧ stepStartNames k (processSteps dp none k steps).1 = steps.map Step.name :=
  ⟨fm_stepMarkerF_processStepsGo dp k 0 steps, fm_stepNameF_processStepsGo dp k 0 steps⟩

/-- C9: the sanitizer keeps exactly the entries whose value is defined, with
keys and values unchanged (it is the filterMap of the defined entries, and a
pair belongs to the output exactly when the entry with that defined value is in
the input), it is total by construction, and applying it twice yields the same
result as applying it once. -/
theorem removeUndefinedProperties_spec (obj : List (String × Option AttrVal)) :
    removeUndefinedProperties obj =
      obj.filterMap (fun kv => (kv.2).map (fun v => (kv.1, v)))
  ∧ (∀ (k : String) (v : AttrVal),
      (k, v) ∈ removeUndefinedProperties obj ↔ (k, some v) ∈ obj)
  ∧ removeUndefinedProperties
      ((removeUndefinedProperties obj).map (fun kv => (kv.1, some kv.2))) =
      removeUndefinedProperties obj := by
  refine ⟨removeUndefinedProperties_eq_filterMap obj, ?_, ?_⟩
  · intro k v
    rw [removeUndefinedProperties_eq_filterMap]
    constructor
    · intro hm
      obtain ⟨kv, hkv, he⟩ := List.mem_filterMap.mp hm
      obtain ⟨k2, o⟩ := kv
      cases o with
      | none => simp at he
      | some v2 =>
        simp at he
        obtain ⟨hk2, hv2⟩ := he
        rw [← hk2, ← hv2]
        exact hkv
    · intro hm
      exact List.mem_filterMap.mpr ⟨(k, some v), hm, by simp⟩
  · exact removeUndefinedProperties_map_some (removeUndefinedProperties obj)

/-- C2: when some job has status completed and every completed job carries a
truthy, parseable completion timestamp, the root span is ended at the valid
instant `t` that is the completion timestamp of a completed job, and `t` is
maximal among all completed jobs' parsed completion timestamps (ties share the
same time value). -/
theorem root_end_time_is_max_completed (dp : String → Option Int)
    (o : Nat → Option Nat) (b : Bool) (st : String) (jobs : List Job)
    (attrs : List (String × Option AttrVal))
    (hex : jobs.any (fun j => j.status == "completed") = true)
    (hpar : ∀ j ∈ jobs, j.status = "completed" →
      jsTruthy j.completed_at = true ∧ (dp (j.completed_at.getD "")).isSome = true) :
    ∃ t : Int,
      rootEndEvents (createSpansForJobsAndSteps dp o b st jobs attrs).1 =
        [some (JsDate.valid t)]
      ∧ (∃ j ∈ jobs, j.status = "completed" ∧
          ∃ s, j.completed_at = some s ∧ dp s = some t)
      ∧ ∀ j ∈ jobs, j.status = "completed" →
          ∀ s u, j.completed_at = some s → dp s = some u → u ≤ t := by
  obtain ⟨sel, hsel, hselmem, hselc, hmax⟩ := lastCompletedJob_eq_some dp jobs hex
  obtain ⟨htr, hps⟩ := hpar sel hselmem hselc
  cases hca : sel.completed_at with
  | none => rw [hca] at htr; simp [jsTruthy] at htr
  | some s =>
    have hsne : s ≠ "" := by rw [hca] at htr; simpa [jsTruthy] using htr
    rw [hca] at hps
    simp only [Option.getD_some] at hps
    obtain ⟨t, ht⟩ := Option.isSome_iff_exists.mp hps
    refine ⟨t, ?_, ⟨sel, hselmem, hselc, s, hca, ht⟩, ?_⟩
    · rw [rootEndEvents_createSpans, hsel]
      simp [jobEndArg_of_parse dp sel s t hca hsne ht]
    · intro j hj hjc s2 u hs2 hu
      have hs2ne : s2 ≠ "" := by
        obtain ⟨htr2, _⟩ := hpar j hj hjc
        rw [hs2] at htr2
        simpa [jsTruthy] using htr2
      have hkey : jobSortKey dp j = u := jobSortKey_eq_parse dp j s2 u hs2 hs2ne hu
      have hkeysel : jobSortKey dp sel = t := jobSortKey_eq_parse dp sel s t hca hsne ht
      have hle := hmax j hj hjc
      omega

/-- Witness for C2: two completed jobs ending at instants 100 and 200; the
root span is ended at 200, the maximum. -/
theorem root_end_time_is_max_completed_witness :
    (([jobW1, jobW2] : List Job).any (fun j => j.status == "completed") = true)
  ∧ (∀ j ∈ ([jobW1, jobW2] : List Job), j.status = "completed" →
      jsTruthy j.completed_at = true ∧ (dp0 (j.completed_at.getD "")).isSome = true)
  ∧ ∃ t : Int,
      rootEndEvents
          (createSpansForJobsAndSteps dp0 oracle0 false "T1" [jobW1, jobW2] []).1 =
        [some (JsDate.valid t)]
      ∧ (∃ j ∈ ([jobW1, jobW2] : List Job), j.status = "completed" ∧
          ∃ s, j.completed_at = some s ∧ dp0 s = some t)
      ∧ ∀ j ∈ ([jobW1, jobW2] : List Job), j.status = "completed" →
          ∀ s u, j.completed_at = some s → dp0 s = some u → u ≤ t :=
  ⟨by decide, by decide,
   root_end_time_is_max_completed dp0 oracle0 false "T1" [jobW1, jobW2] []
     (by decide) (by decide)⟩

/-- C3 counterexample: at the empty job list (no job has status completed),
createSpansForJobsAndSteps raises (the reduce of the empty completed-jobs
array has no initial value) and no root end event with undefined time is
emitted, contradicting the claim that it does not raise and leaves the end
time undefined. -/
theorem no_completed_job_claim_cex :
    ¬ ((createSpansForJobsAndSteps dp0 oracle0 false "T1" [] []).2 = false
       ∧ rootEndEvents (createSpansForJobsAndSteps dp0 oracle0 false "T1" [] []).1
           = [none]) := by
  decide

/-- C3 amended: for every job list in which no job has status completed
(including the empty list), the end-time reduction raises (modelled by the
raised flag) and the root span's end is never invoked. -/
theorem no_completed_job_reduce_raises (dp : String → Option Int)
    (o : Nat → Option Nat) (b : Bool) (st : String) (jobs : List Job)
    (attrs : List (String × Option AttrVal))
    (h : ∀ j ∈ jobs, ¬ (j.status = "completed")) :
    (createSpansForJobsAndSteps dp o b st jobs attrs).2 = true
    ∧ rootEndEvents (createSpansForJobsAndSteps dp o b st jobs attrs).1 = [] := by
  have hl := lastCompletedJob_eq_none dp jobs h
  constructor
  · rw [createSpans_raised, hl]; rfl
  · rw [rootEndEvents_createSpans, hl]

/-- Witness for the amended C3 at a single in-progress job. -/
theorem no_completed_job_reduce_raises_witness :
    (∀ j ∈ ([jobInProg] : List Job), ¬ (j.status = "completed"))
  ∧ ((createSpansForJobsAndSteps dp0 oracle0 false "T1" [jobInProg] []).2 = true
     ∧ rootEndEvents
         (createSpansForJobsAndSteps dp0 oracle0 false "T1" [jobInProg] []).1 = []) :=
  ⟨by decide,
   no_completed_job_reduce_raises dp0 oracle0 false "T1" [jobInProg] [] (by decide)⟩

/-- C4 counterexample: on the exit path where the end-time computation raises
(no completed job), the root span's end is not invoked at all, contradicting
closure on every exit path. -/
theorem root_close_every_path_cex :
    ¬ ((rootEndEvents
          (createSpansForJobsAndSteps dp0 oracle0 true "T1" ([] : List Job) []).1).length
        = 1) := by
  decide

/-- C4 amended: the root span's end is invoked exactly once on every exit path
on which the end-time computation does not raise — i.e. whenever at least one
job has status completed — including when job dispatch raises (any
dispatchRaises flag and any step-fault oracle); when no job is completed the
end-time computation raises and the end is never invoked. -/
theorem root_closed_iff_completed_exists (dp : String → Option Int)
    (o : Nat → Option Nat) (b : Bool) (st : String) (jobs : List Job)
    (attrs : List (String × Option AttrVal)) :
    (jobs.any (fun j => j.status == "completed") = true →
      (rootEndEvents (createSpansForJobsAndSteps dp o b st jobs attrs).1).length = 1
      ∧ (createSpansForJobsAndSteps dp o b st jobs attrs).2 = false)
  ∧ (jobs.any (fun j => j.status == "completed") = false →
      rootEndEvents (createSpansForJobsAndSteps dp o b st jobs attrs).1 = []
      ∧ (createSpansForJobsAndSteps dp o b st jobs attrs).2 = true) := by
  constructor
  · intro h
    obtain ⟨sel, hsel, -, -, -⟩ := lastCompletedJob_eq_some dp jobs h
    constructor
    · rw [rootEndEvents_createSpans, hsel]; rfl
    · rw [createSpans_raised, hsel]; rfl
  · intro h
    have hnone : ∀ j ∈ jobs, ¬ (j.status = "completed") := by
      intro j hj hc
      have hany : jobs.any (fun j => j.status == "completed") = true :=
        List.any_eq_true.mpr ⟨j, hj, by simp [hc]⟩
      rw [hany] at h
      exact absurd h (by simp)
    have hl := lastCompletedJob_eq_none dp jobs hnone
    exact ⟨by rw [rootEndEvents_createSpans, hl], by rw [createSpans_raised, hl]; rfl⟩

/-- Witness for the amended C4: with a completed job the root end is invoked
exactly once even under an injected dispatch raise; with no job the end-time
computation raises and no end is invoked. -/
theorem root_closed_iff_completed_exists_witness :
    ((([jobW2] : List Job).any (fun j => j.status == "completed") = true)
      ∧ ((rootEndEvents
            (createSpansForJobsAndSteps dp0 oracle0 true "T2" [jobW2] []).1).length = 1
         ∧ (createSpansForJobsAndSteps dp0 oracle0 true "T2" [jobW2] []).2 = false))
  ∧ ((([] : List Job).any (fun j => j.status == "completed") = false)
      ∧ (rootEndEvents
           (createSpansForJobsAndSteps dp0 oracle0 false "T2" ([] : List Job) []).1 = []
         ∧ (createSpansForJobsAndSteps dp0 oracle0 false "T2" ([] : List Job) []).2 = true)) :=
  ⟨⟨by decide,
    (root_closed_iff_completed_exists dp0 oracle0 true "T2" [jobW2] []).1 (by decide)⟩,
   ⟨by decide,
    (root_closed_iff_completed_exists dp0 oracle0 false "T2" [] []).2 (by decide)⟩⟩

/-- C5: under any step-fault oracle (in particular one that raises while
processing some job's steps), every job of the batch still gets exactly one
span start with its full record and exactly one span end at its completion
timestamp if present; and when the oracle makes the steps of the requested job
raise, the failure is reported via core.setFailed without escaping the job
processor (the end event above still occurring). -/
theorem job_failure_isolation (dp : String → Option Int) (o : Nat → Option Nat)
    (jobs : List Job) (attrs : List (String × Option AttrVal)) (i : Nat) (job : Job)
    (h : jobs[i]? = some job) :
    jobStartEvents i (handleJobsAndSteps dp o jobs attrs) = [jobStartRecord dp job]
  ∧ jobEndEvents i (handleJobsAndSteps dp o jobs attrs) = [jobEndArg dp job]
  ∧ (∀ (steps : List Step) (m : Nat), job.steps = some steps → o i = some m →
      m < steps.length →
      Ev.coreSetFailed ("Failed to process job " ++ job.name) ∈
        handleJobsAndSteps dp o jobs attrs) := by
  refine ⟨fm_jobStartF_handle dp o jobs attrs i job h,
    fm_jobEndF_handle dp o jobs attrs i job h, ?_⟩
  intro steps m hsteps hoi hm
  have hraised : (jobStepsRun dp (o i) i job).2 = true := by
    rw [jobStepsRun, hsteps]
    simp only [processSteps]
    rw [hoi]
    exact processStepsGo_raised dp i m 0 steps (by omega) (by omega)
  have hmem : Ev.coreSetFailed ("Failed to process job " ++ job.name) ∈
      processJob dp (o i) i job := by
    simp [processJob, hraised]
  have hrun := mem_runJobs_of_mem_processJob dp o 0 i jobs job h
  rw [Nat.zero_add] at hrun
  have hin := hrun _ hmem
  simp only [handleJobsAndSteps, List.mem_cons]
  exact Or.inr (Or.inr hin)

/-- Witness for C5: a fault injected at step 0 of job 0 is reported via
core.setFailed, while both jobs' spans are still started and ended once. -/
theorem job_failure_isolation_witness :
    (([jobW1, jobW2] : List Job)[0]? = some jobW1)
  ∧ (jobStartEvents 0 (handleJobsAndSteps dp0 oracleFail0 [jobW1, jobW2] []) =
        [jobStartRecord dp0 jobW1]
     ∧ jobEndEvents 0 (handleJobsAndSteps dp0 oracleFail0 [jobW1, jobW2] []) =
        [jobEndArg dp0 jobW1]
     ∧ (∀ (steps : List Step) (m : Nat), jobW1.steps = some steps →
          oracleFail0 0 = some m → m < steps.length →
          Ev.coreSetFailed ("Failed to process job " ++ jobW1.name) ∈
            handleJobsAndSteps dp0 oracleFail0 [jobW1, jobW2] [])) :=
  ⟨by decide,
   job_failure_isolation dp0 oracleFail0 [jobW1, jobW2] [] 0 jobW1 (by decide)⟩

/-- C8: for the step at index `i`, the step span's status is OK (message "OK")
exactly when the step's conclusion is success and ERROR otherwise; the span is
started at the step's start timestamp when present (nonempty) and ended at the
step's completion timestamp when present, else with an undefined end time; and
step processing does not raise. -/
theorem step_span_properties (dp : String → Option Int) (k : Nat)
    (steps : List Step) (i : Nat) (st : Step) (h : steps[i]? = some st) :
    ((Ev.setStatus (SpanId.step k i) StatusCode.OK (some "OK")
        ∈ (processSteps dp none k steps).1) ↔ st.conclusion = some "success")
  ∧ ((Ev.setStatus (SpanId.step k i) StatusCode.ERROR (some "ERROR")
        ∈ (processSteps dp none k steps).1) ↔ ¬ (st.conclusion = some "success"))
  ∧ (∀ s, st.started_at = some s → s ≠ "" →
      Ev.startSpan (SpanId.step k i) st.name (some (jsNewDate dp s)) []
        ∈ (processSteps dp none k steps).1)
  ∧ (∀ s, st.completed_at = some s → s ≠ "" →
      Ev.endSpan (SpanId.step k i) (some (jsNewDate dp s))
        ∈ (processSteps dp none k steps).1)
  ∧ (jsTruthy st.completed_at = false →
      Ev.endSpan (SpanId.step k i) none ∈ (processSteps dp none k steps).1)
  ∧ (processSteps dp none k steps).2 = false := by
  have hfm := fm_stepAtF_processStepsGo dp k 0 steps i st h
  rw [Nat.zero_add] at hfm
  simp only [processSteps]
  have hmemiff : ∀ e : Ev, stepAtF k i e = some e →
      (e ∈ (processStepsGo dp none k 0 steps).1 ↔ e ∈ stepEvents dp k i st) := by
    intro e hse
    constructor
    · intro hmem
      rw [← hfm]
      exact List.mem_filterMap.mpr ⟨e, hmem, hse⟩
    · intro hmem
      have hm2 : e ∈ List.filterMap (stepAtF k i) (processStepsGo dp none k 0 steps).1 := by
        rw [hfm]; exact hmem
      obtain ⟨a, hamem, hae⟩ := List.mem_filterMap.mp hm2
      exact (stepAtF_eq_some k i a e hae) ▸ hamem
  refine ⟨?_, ?_, ?_, ?_, ?_, processStepsGo_none_ok dp k 0 steps⟩
  · rw [hmemiff _ (by simp [stepAtF])]
    by_cases hc : st.conclusion = some "success"
    · simp [stepEvents, setSpanStatus, hc]
    · have hb : (st.conclusion == some "success") = false := by simp [hc]
      simp [stepEvents, setSpanStatus, hb, hc]
  · rw [hmemiff _ (by simp [stepAtF])]
    by_cases hc : st.conclusion = some "success"
    · simp [stepEvents, setSpanStatus, hc]
    · have hb : (st.conclusion == some "success") = false := by simp [hc]
      simp [stepEvents, setSpanStatus, hb, hc]
  · intro s hs hsne
    rw [hmemiff _ (by simp [stepAtF])]
    have harg : stepStartArg dp st = some (jsNewDate dp s) := by
      simp [stepStartArg, optDateArg, jsTruthy, hs, hsne]
    simp [stepEvents, harg]
  · intro s hs hsne
    rw [hmemiff _ (by simp [stepAtF])]
    have harg : stepEndArg dp st = some (jsNewDate dp s) := by
      simp [stepEndArg, optDateArg, jsTruthy, hs, hsne]
    simp [stepEvents, harg]
  · intro hf
    rw [hmemiff _ (by simp [stepAtF])]
    have harg : stepEndArg dp st = none := by
      simp [stepEndArg, optDateArg, hf]
    simp [stepEvents, harg]

/-- Witness for C8 at a successful, fully timestamped step. -/
theorem step_span_properties_witness :
    (([stepW] : List Step)[0]? = some stepW)
  ∧ (((Ev.setStatus (SpanId.step 0 0) StatusCode.OK (some "OK")
        ∈ (processSteps dp0 none 0 [stepW]).1) ↔ stepW.conclusion = some "success")
    ∧ ((Ev.setStatus (SpanId.step 0 0) StatusCode.ERROR (some "ERROR")
        ∈ (processSteps dp0 none 0 [stepW]).1) ↔ ¬ (stepW.conclusion = some "success"))
    ∧ (∀ s, stepW.started_at = some s → s ≠ "" →
        Ev.startSpan (SpanId.step 0 0) stepW.name (some (jsNewDate dp0 s)) []
          ∈ (processSteps dp0 none 0 [stepW]).1)
    ∧ (∀ s, stepW.completed_at = some s → s ≠ "" →
        Ev.endSpan (SpanId.step 0 0) (some (jsNewDate dp0 s))
          ∈ (processSteps dp0 none 0 [stepW]).1)
    ∧ (jsTruthy stepW.completed_at = false →
        Ev.endSpan (SpanId.step 0 0) none ∈ (processSteps dp0 none 0 [stepW]).1)
    ∧ (processSteps dp0 none 0 [stepW]).2 = false) :=
  ⟨by decide, step_span_properties dp0 0 [stepW] 0 stepW (by decide)⟩

/-- C10 counterexample: a single completed job whose completion timestamp is
present but unparseable is selected, and the root span is ended with an
Invalid Date value, not with an undefined end time. -/
theorem unparseable_selected_end_cex :
    rootEndEvents (createSpansForJobsAndSteps dp0 oracle0 false "T1" [jobJunk] []).1
      = [some JsDate.invalid]
  ∧ rootEndEvents (createSpansForJobsAndSteps dp0 oracle0 false "T1" [jobJunk] []).1
      ≠ [none] := by
  decide

/-- C10 amended: in the root end-time selection every completed job with a
falsy or unparseable completion timestamp has sort key 0; the selected job's
key is maximal, so a key-0 job is selected only when no completed job has a
parseable timestamp later than 0; the root span is ended with the selected
job's end argument, which is undefined when its timestamp is absent or empty
but an Invalid Date value when it is present and unparseable. -/
theorem selected_job_comparison_and_end (dp : String → Option Int)
    (o : Nat → Option Nat) (b : Bool) (st : String) (jobs : List Job)
    (attrs : List (String × Option AttrVal))
    (hex : jobs.any (fun j => j.status == "completed") = true) :
    ∃ sel, lastCompletedJob dp jobs = some sel
      ∧ sel ∈ jobs ∧ sel.status = "completed"
      ∧ (∀ j ∈ jobs, j.status = "completed" →
          (jsTruthy j.completed_at = false ∨ dp (j.completed_at.getD "") = none) →
          jobSortKey dp j = 0)
      ∧ (∀ j ∈ jobs, j.status = "completed" → jobSortKey dp j ≤ jobSortKey dp sel)
      ∧ (jobSortKey dp sel = 0 →
          ∀ j ∈ jobs, j.status = "completed" → ∀ s t, j.completed_at = some s →
            s ≠ "" → dp s = some t → t ≤ 0)
      ∧ rootEndEvents (createSpansForJobsAndSteps dp o b st jobs attrs).1 =
          [jobEndArg dp sel]
      ∧ (jsTruthy sel.completed_at = false → jobEndArg dp sel = none)
      ∧ (jsTruthy sel.completed_at = true → dp (sel.completed_at.getD "") = none →
          jobEndArg dp sel = some JsDate.invalid) := by
  obtain ⟨sel, hsel, hmem, hcomp, hmax⟩ := lastCompletedJob_eq_some dp jobs hex
  refine ⟨sel, hsel, hmem, hcomp, ?_, hmax, ?_, ?_, ?_, ?_⟩
  · intro j _ _ hz
    exact jobSortKey_eq_zero dp j hz
  · intro hz j hj hjc s t hs hsne hp
    have h1 : jobSortKey dp j = t := jobSortKey_eq_parse dp j s t hs hsne hp
    have h2 := hmax j hj hjc
    omega
  · rw [rootEndEvents_createSpans, hsel]
  · intro hf
    exact jobEndArg_of_falsy dp sel hf
  · intro h1 h2
    exact jobEndArg_of_unparseable dp sel h1 h2

/-- Witness for the amended C10: the completed job with the unparseable
timestamp is selected with sort key 0 and the root span is ended with an
Invalid Date value. -/
theorem selected_job_comparison_and_end_witness :
    (([jobJunk] : List Job).any (fun j => j.status == "completed") = true)
  ∧ ∃ sel, lastCompletedJob dp0 [jobJunk] = some sel
      ∧ sel ∈ ([jobJunk] : List Job) ∧ sel.status = "completed"
      ∧ (∀ j ∈ ([jobJunk] : List Job), j.status = "completed" →
          (jsTruthy j.completed_at = false ∨ dp0 (j.completed_at.getD "") = none) →
          jobSortKey dp0 j = 0)
      ∧ (∀ j ∈ ([jobJunk] : List Job), j.status = "completed" →
          jobSortKey dp0 j ≤ jobSortKey dp0 sel)
      ∧ (jobSortKey dp0 sel = 0 →
          ∀ j ∈ ([jobJunk] : List Job), j.status = "completed" →
            ∀ s t, j.completed_at = some s → s ≠ "" → dp0 s = some t → t ≤ 0)
      ∧ rootEndEvents (createSpansForJobsAndSteps dp0 oracle0 false "T1" [jobJunk] []).1 =
          [jobEndArg dp0 sel]
      ∧ (jsTruthy sel.completed_at = false → jobEndArg dp0 sel = none)
      ∧ (jsTruthy sel.completed_at = true → dp0 (sel.completed_at.getD "") = none →
          jobEndArg dp0 sel = some JsDate.invalid) :=
  ⟨by decide,
   selected_job_comparison_and_end dp0 oracle0 false "T1" [jobJunk] [] (by decide)⟩

end GrafanaExporter
